import Mathlib

/-!
# Scotter: the two commitlint configuration documents

A shallow embedding of `src/.commitlintrc.js` and `src/commitlint.config.js`.
Both files are a single `module.exports = { extends: [...], rules: {...} }`
object literal.  The literals are embedded as data: every JavaScript value that
occurs in them (integer literal, string literal, array literal) keeps its shape,
and the `rules` object keeps its keys in source order.
-/

namespace Scotter

/-! ## JavaScript values occurring in the documents -/

/-- The JavaScript values the two documents are built from: integer number
literals, string literals and array literals. -/
inductive JsValue where
  | num (n : Int)
  | str (s : String)
  | arr (items : List JsValue)

namespace JsValue

mutual
/-- Equality of values is decidable, by comparing their structure. -/
def decEq : (a b : JsValue) → Decidable (a = b)
  | num a, num b =>
      if h : a = b then isTrue (congrArg num h) else isFalse (fun e => h (num.inj e))
  | str a, str b =>
      if h : a = b then isTrue (congrArg str h) else isFalse (fun e => h (str.inj e))
  | arr a, arr b =>
      match decEqList a b with
      | isTrue h => isTrue (congrArg arr h)
      | isFalse h => isFalse (fun e => h (arr.inj e))
  | num _, str _ => isFalse (fun e => JsValue.noConfusion e)
  | num _, arr _ => isFalse (fun e => JsValue.noConfusion e)
  | str _, num _ => isFalse (fun e => JsValue.noConfusion e)
  | str _, arr _ => isFalse (fun e => JsValue.noConfusion e)
  | arr _, num _ => isFalse (fun e => JsValue.noConfusion e)
  | arr _, str _ => isFalse (fun e => JsValue.noConfusion e)
/-- Equality of lists of values is decidable, item by item. -/
def decEqList : (a b : List JsValue) → Decidable (a = b)
  | [], [] => isTrue rfl
  | x :: xs, y :: ys =>
      match decEq x y, decEqList xs ys with
      | isTrue h, isTrue hs => isTrue (by rw [h, hs])
      | isFalse h, _ => isFalse (fun e => h (List.cons.inj e).1)
      | _, isFalse hs => isFalse (fun e => hs (List.cons.inj e).2)
  | [], _ :: _ => isFalse (fun e => List.noConfusion e)
  | _ :: _, [] => isFalse (fun e => List.noConfusion e)
end

instance : DecidableEq JsValue := decEq

/-- The strings of an array literal whose items are all string literals. -/
def stringItems : List JsValue → Option (List String)
  | [] => some []
  | str s :: rest => (stringItems rest).map (fun ss => s :: ss)
  | _ :: _ => none

/-- The value is an array of string literals: `some strings`. -/
def asStringList : JsValue → Option (List String)
  | arr items => stringItems items
  | _ => none

/-- The value is an integer number literal: `some n`. -/
def asInteger : JsValue → Option Int
  | num n => some n
  | _ => none

end JsValue

/-! ## The documents -/

/-- The `module.exports` object of one configuration file: its `extends` array
and its `rules` object, keys in source order, each key bound to the array
literal written in the source. -/
structure ConfigDocument where
  extends_ : List String
  rules : List (String × List JsValue)
  deriving DecidableEq

/-- The object exported by `src/.commitlintrc.js`. -/
def commitlintrc : ConfigDocument where
  extends_ := ["@commitlint/config-conventional"]
  rules :=
    [ ("type-enum",
        [ .num 2,
          .str "always",
          .arr
            [ .str "feat",
              .str "fix",
              .str "docs",
              .str "style",
              .str "refactor",
              .str "perf",
              .str "test",
              .str "build",
              .str "ci",
              .str "chore",
              .str "revert" ] ]),
      ("scope-enum",
        [ .num 2,
          .str "always",
          .arr
            [ .str "core",
              .str "model",
              .str "prompt",
              .str "generator",
              .str "config",
              .str "init",
              .str "cli",
              .str "docs",
              .str "deps" ] ]),
      ("scope-empty", [.num 2, .str "never"]),
      ("subject-case", [.num 0]),
      ("body-max-line-length", [.num 0]) ]

/-- The object exported by `src/commitlint.config.js`. -/
def commitlintConfig : ConfigDocument where
  extends_ := ["@commitlint/config-conventional"]
  rules :=
    [ ("body-max-line-length", [.num 1, .str "always", .num 100]),
      ("subject-case", [.num 0, .str "always", .arr []]),
      ("type-enum",
        [ .num 1, .str "always",
          .arr [ .str "build", .str "chore", .str "ci", .str "docs", .str "feat", .str "fix",
                .str "perf", .str "refactor", .str "revert", .str "style", .str "test" ] ]),
      ("subject-empty", [.num 1, .str "never"]),
      ("type-empty", [.num 1, .str "never"]) ]

/-- Both configuration documents of the repository. -/
def documents : List ConfigDocument := [commitlintrc, commitlintConfig]

/-! ## Reading a rule entry

A rule entry is the array literal bound to a rule name.  Its components are
read by index, as JavaScript does: an index past the end gives nothing. -/

/-- First component of a rule entry (the severity level), if present. -/
def severityOf (entry : List JsValue) : Option JsValue := entry[0]?

/-- Second component of a rule entry (the condition), if present. -/
def conditionOf (entry : List JsValue) : Option JsValue := entry[1]?

/-- Third component of a rule entry (the value), if present. -/
def valueOf (entry : List JsValue) : Option JsValue := entry[2]?

/-- First binding of a key in a list of key-value pairs. -/
def lookupKey {β : Type} (name : String) : List (String × β) → Option β
  | [] => none
  | (k, v) :: rest => if k = name then some v else lookupKey name rest

/-- The entry a document binds to a rule name: property lookup on the `rules`
object.  An object literal that writes a key twice holds the later binding, so
the pairs are searched from the end of the source. -/
def ruleOf (doc : ConfigDocument) (name : String) : Option (List JsValue) :=
  lookupKey name doc.rules.reverse

/-- The rule names of a document, in source order. -/
def ruleNames (doc : ConfigDocument) : List String := doc.rules.map Prod.fst

/-- The entry has a second component and it is the string `always` or the
string `never`. -/
def HasCondition (entry : List JsValue) : Prop :=
  conditionOf entry = some (.str "always") ∨ conditionOf entry = some (.str "never")

instance (entry : List JsValue) : Decidable (HasCondition entry) := by
  unfold HasCondition; infer_instance

/-- The entry has a first component and it is the integer 0, 1 or 2. -/
def HasSeverityLevel (entry : List JsValue) : Prop :=
  severityOf entry = some (.num 0) ∨ severityOf entry = some (.num 1) ∨
    severityOf entry = some (.num 2)

instance (entry : List JsValue) : Decidable (HasSeverityLevel entry) := by
  unfold HasSeverityLevel; infer_instance

/-- The array of strings a document gives as the value of a rule, if the rule
is defined there and its third component is an array of string literals. -/
def stringListOf (doc : ConfigDocument) (name : String) : Option (List String) :=
  ((ruleOf doc name).bind valueOf).bind JsValue.asStringList

/-- The seven rule names the specification lists as recognized. -/
def recognizedRuleNames : List String :=
  ["type-enum", "scope-enum", "scope-empty", "subject-case", "body-max-line-length",
   "subject-empty", "type-empty"]

/-! ## The resolver of the specification

The repository holds only the two documents; the resolver that consumes them is
described by the specification alone. -/

/-- Modelled from the spec: `RuleSeverity`, the enumeration `Off`, `Warning`,
`Error` of section 3; no source file declares it. -/
inductive RuleSeverity where
  | Off
  | Warning
  | Error
  deriving DecidableEq, Repr

/-- Modelled from the spec: the integer level of a severity, `Off` 0,
`Warning` 1, `Error` 2. -/
def RuleSeverity.level : RuleSeverity → Int
  | .Off => 0
  | .Warning => 1
  | .Error => 2

/-- Modelled from the spec: the severity an integer level stands for; levels
other than 0, 1 and 2 stand for none. -/
def RuleSeverity.ofLevel (n : Int) : Option RuleSeverity :=
  if n = 0 then some .Off
  else if n = 1 then some .Warning
  else if n = 2 then some .Error
  else none

/-- Modelled from the spec: `RuleCondition`, the enumeration `Always`, `Never`
of section 3. -/
inductive RuleCondition where
  | Always
  | Never
  deriving DecidableEq, Repr

/-- Modelled from the spec: the string a condition is written as in a rule
entry, `always` or `never` (section 6). -/
def RuleCondition.text : RuleCondition → String
  | .Always => "always"
  | .Never => "never"

/-- Modelled from the spec: `RuleDefinition`, the triple of severity, condition
and value of section 3.  Severity and condition are required components.  The
value is the tagged variant of section 9: the array, integer or string written
as the third component of the entry, or nothing (the `Unit` of section 3) when
the entry has no third component. -/
structure RuleDefinition where
  severity : RuleSeverity
  condition : RuleCondition
  value : Option JsValue
  deriving DecidableEq

/-- Modelled from the spec: the error taxonomy of section 7.  The payload names
the offending extends target or rule. -/
inductive ResolveError where
  | UnknownExtendsTarget (target : String)
  | MalformedRuleDefinition (rule : String)
  | DuplicateRuleNameConflict (rule : String)
  deriving DecidableEq, Repr

/-- Modelled from the spec: `EffectiveConfig`, the resolved mapping from rule
name to definition, kept as a list of bindings. -/
abbrev EffectiveConfig := List (String × RuleDefinition)

/-- Modelled from the spec: the known base configurations, by name. -/
abbrev Registry := List (String × ConfigDocument)

/-- Modelled from the spec: the value types section 6 documents per rule name. -/
inductive ValueType where
  | stringSet
  | integer
  deriving DecidableEq, Repr

/-- Modelled from the spec: section 6 documents a value type for `type-enum`,
`scope-enum` (a set of strings) and `body-max-line-length` (an integer), and
for no other rule name. -/
def documentedType (name : String) : Option ValueType :=
  if name = "type-enum" then some .stringSet
  else if name = "scope-enum" then some .stringSet
  else if name = "body-max-line-length" then some .integer
  else none

/-- Modelled from the spec: the severity of an entry, when its first component
is one of the three recognized levels. -/
def toSeverity (entry : List JsValue) : Option RuleSeverity :=
  ((severityOf entry).bind JsValue.asInteger).bind RuleSeverity.ofLevel

/-- Modelled from the spec: the condition of an entry, when its second
component is the string `always` or the string `never`.  The condition is a
required component: an entry without a second component has none. -/
def toCondition : Option JsValue → Option RuleCondition
  | some (.str s) =>
      if s = "always" then some .Always
      else if s = "never" then some .Never
      else none
  | _ => none

/-- Modelled from the spec: a value agrees with the documented type of its rule
when the rule has no documented type, when no value is given (the value is the
optional component of an entry), or when the value given has the documented
type: an array of strings for a string set, an integer for an integer. -/
def agreesWith : Option ValueType → Option JsValue → Bool
  | none, _ => true
  | some _, none => true
  | some .stringSet, some v => (JsValue.asStringList v).isSome
  | some .integer, some v => (JsValue.asInteger v).isSome

/-- Modelled from the spec: one rule entry read as a `RuleDefinition`, failing
with `MalformedRuleDefinition` when the severity is not one of the three
recognized values, when the condition is missing or is neither `always` nor
`never`, or when the value does not have the documented type of the rule. -/
def toRuleDefinition (name : String) (entry : List JsValue) :
    Except ResolveError RuleDefinition :=
  match toSeverity entry, toCondition (conditionOf entry) with
  | some sev, some cond =>
      if agreesWith (documentedType name) (valueOf entry) then
        .ok ⟨sev, cond, valueOf entry⟩
      else .error (.MalformedRuleDefinition name)
  | _, _ => .error (.MalformedRuleDefinition name)

/-- Modelled from the spec: the local `rules` of a document read entry by
entry, in order; the first malformed entry is fatal. -/
def parseRules : List (String × List JsValue) → Except ResolveError EffectiveConfig
  | [] => .ok []
  | (name, entry) :: rest =>
      match toRuleDefinition name entry with
      | .error e => .error e
      | .ok d =>
          match parseRules rest with
          | .error e => .error e
          | .ok ds => .ok ((name, d) :: ds)

/-- Modelled from the spec: write one rule into a configuration, replacing the
binding of the same name when there is one (last writer wins). -/
def setRule : EffectiveConfig → String → RuleDefinition → EffectiveConfig
  | [], name, d => [(name, d)]
  | (k, v) :: rest, name, d =>
      if k = name then (name, d) :: rest else (k, v) :: setRule rest name d

/-- Modelled from the spec: overlay rules onto a base, each overlaid entry
overwriting the base entry of the same name. -/
def overlay (base own : EffectiveConfig) : EffectiveConfig :=
  own.foldl (fun acc r => setRule acc r.1 r.2) base

/-- Modelled from the spec: resolve the `extends` names of a document left to
right onto an accumulated base.  `recur` resolves a base document; it answers
`none` when the nesting budget is used up.  A name the registry does not know is
`UnknownExtendsTarget`. -/
def resolveExtends (reg : Registry)
    (recur : ConfigDocument → Option (Except ResolveError EffectiveConfig)) :
    List String → EffectiveConfig → Option (Except ResolveError EffectiveConfig)
  | [], acc => some (.ok acc)
  | name :: rest, acc =>
      match lookupKey name reg with
      | none => some (.error (.UnknownExtendsTarget name))
      | some base =>
          match recur base with
          | none => none
          | some (.error e) => some (.error e)
          | some (.ok cfg) => resolveExtends reg recur rest (overlay acc cfg)

/-- Modelled from the spec: one document resolved: its `extends` first, then
its local rules overlaid on the base they produce. -/
def resolveWith (reg : Registry)
    (recur : ConfigDocument → Option (Except ResolveError EffectiveConfig))
    (doc : ConfigDocument) : Option (Except ResolveError EffectiveConfig) :=
  match resolveExtends reg recur doc.extends_ [] with
  | none => none
  | some (.error e) => some (.error e)
  | some (.ok base) =>
      match parseRules doc.rules with
      | .error e => some (.error e)
      | .ok own => some (.ok (overlay base own))

/-- Modelled from the spec: depth-first resolution of a document, following at
most `depth` nested levels of `extends`; `none` when a chain of `extends` is
longer than that (a cyclic registry never resolves). -/
def resolveDoc (reg : Registry) : Nat → ConfigDocument →
    Option (Except ResolveError EffectiveConfig)
  | 0, doc => resolveWith reg (fun _ => none) doc
  | depth + 1, doc => resolveWith reg (resolveDoc reg depth) doc

/-- Modelled from the spec: the documents of a sequence resolved in order and
merged onto an accumulated configuration, later documents winning. -/
def resolveFrom (reg : Registry) (depth : Nat) :
    List ConfigDocument → EffectiveConfig → Option (Except ResolveError EffectiveConfig)
  | [], acc => some (.ok acc)
  | doc :: rest, acc =>
      match resolveDoc reg depth doc with
      | none => none
      | some (.error e) => some (.error e)
      | some (.ok cfg) => resolveFrom reg depth rest (overlay acc cfg)

/-- Modelled from the spec: `resolve(documents)`, root document last. -/
def resolve (reg : Registry) (depth : Nat) (docs : List ConfigDocument) :
    Option (Except ResolveError EffectiveConfig) :=
  resolveFrom reg depth docs []

/-! ## Sample registries -/

/-- A base configuration with nothing to extend and four rules of its own: a
`type-enum` and a `subject-empty` that `src/commitlint.config.js` overrides, and
two rules neither document names, one with an integer and one with a string as
value. -/
def sampleBase : ConfigDocument where
  extends_ := []
  rules :=
    [ ("type-enum", [.num 2, .str "always", .arr [.str "feat", .str "fix", .str "docs"]]),
      ("header-max-length", [.num 2, .str "always", .num 100]),
      ("subject-full-stop", [.num 2, .str "never", .str "."]),
      ("subject-empty", [.num 2, .str "never"]) ]

/-- The configuration `sampleBase` resolves to. -/
def sampleBaseConfig : EffectiveConfig :=
  [ ("type-enum",
      ⟨.Error, .Always, some (.arr [.str "feat", .str "fix", .str "docs"])⟩),
    ("header-max-length", ⟨.Error, .Always, some (.num 100)⟩),
    ("subject-full-stop", ⟨.Error, .Never, some (.str ".")⟩),
    ("subject-empty", ⟨.Error, .Never, none⟩) ]

/-- A registry that knows `sampleBase` under the name both documents extend. -/
def sampleRegistry : Registry := [("@commitlint/config-conventional", sampleBase)]

/-- A registry whose only entry is registered under the unscoped name
`config-conventional`. -/
def unscopedRegistry : Registry := [("config-conventional", sampleBase)]

/-- A registry whose base configuration extends a name that is not registered. -/
def danglingRegistry : Registry :=
  [("@commitlint/config-conventional", ⟨["missing-base"], []⟩)]

/-! ## Lookup, overlay and unique rule names -/

/-- Lookup in a concatenation: the first list is searched first. -/
theorem lookupKey_append {β : Type} (n : String) (l₁ l₂ : List (String × β)) :
    lookupKey n (l₁ ++ l₂) = (lookupKey n l₁).or (lookupKey n l₂) := by
  induction l₁ with
  | nil => simp [lookupKey]
  | cons r rest ih =>
      obtain ⟨k, v⟩ := r
      by_cases h : k = n <;> simp [lookupKey, h, ih]

/-- A key that is not bound has no binding. -/
theorem lookupKey_eq_none {β : Type} (n : String) (l : List (String × β))
    (h : n ∉ l.map Prod.fst) : lookupKey n l = none := by
  induction l with
  | nil => rfl
  | cons r rest ih =>
      obtain ⟨k, v⟩ := r
      simp only [List.map_cons, List.mem_cons, not_or] at h
      simp [lookupKey, Ne.symm h.1, ih h.2]

/-- With unique keys the search direction does not matter. -/
theorem lookupKey_reverse {β : Type} (n : String) (l : List (String × β))
    (h : (l.map Prod.fst).Nodup) : lookupKey n l.reverse = lookupKey n l := by
  induction l with
  | nil => rfl
  | cons r rest ih =>
      obtain ⟨k, v⟩ := r
      simp only [List.map_cons, List.nodup_cons] at h
      rw [List.reverse_cons, lookupKey_append, ih h.2]
      by_cases hk : k = n
      · subst hk
        simp [lookupKey, lookupKey_eq_none k rest h.1]
      · simp [lookupKey, hk]

/-- Writing a rule binds its name to the new definition and leaves every other name alone. -/
theorem lookupKey_setRule (n : String) (cfg : EffectiveConfig) (k : String)
    (d : RuleDefinition) :
    lookupKey n (setRule cfg k d) = if k = n then some d else lookupKey n cfg := by
  induction cfg with
  | nil => simp [setRule, lookupKey]
  | cons r rest ih =>
      obtain ⟨k', v⟩ := r
      by_cases h : k' = k
      · subst h
        by_cases hn : k' = n <;> simp [setRule, lookupKey, hn]
      · by_cases hn : k' = n
        · subst hn
          simp [setRule, lookupKey, h, Ne.symm h]
        · simp [setRule, lookupKey, h, hn, ih]

/-- Lookup in an overlay: the last overlaid binding of the name wins, and the base answers for names the overlay does not bind. -/
theorem lookupKey_overlay (n : String) (base own : EffectiveConfig) :
    lookupKey n (overlay base own) = (lookupKey n own.reverse).or (lookupKey n base) := by
  induction own generalizing base with
  | nil => simp [overlay, lookupKey]
  | cons r rest ih =>
      have step : overlay base (r :: rest) = overlay (setRule base r.1 r.2) rest := rfl
      rw [step, ih, lookupKey_setRule, List.reverse_cons, lookupKey_append]
      obtain ⟨k, v⟩ := r
      cases hrest : lookupKey n rest.reverse with
      | some d => simp
      | none => by_cases hk : k = n <;> simp [lookupKey, hk]

/-- The names bound after writing a rule are the old names and the written one. -/
theorem mem_keys_setRule (cfg : EffectiveConfig) (k : String) (d : RuleDefinition)
    (n : String) :
    n ∈ (setRule cfg k d).map Prod.fst ↔ n ∈ cfg.map Prod.fst ∨ n = k := by
  induction cfg with
  | nil => simp [setRule]
  | cons r rest ih =>
      obtain ⟨k', v⟩ := r
      by_cases h : k' = k
      · subst h
        simp only [setRule, if_true, List.map_cons, List.mem_cons]
        tauto
      · simp only [setRule, h, if_false, List.map_cons, List.mem_cons, ih]
        tauto

/-- Writing a rule keeps rule names unique. -/
theorem nodup_setRule (cfg : EffectiveConfig) (k : String) (d : RuleDefinition)
    (h : (cfg.map Prod.fst).Nodup) : ((setRule cfg k d).map Prod.fst).Nodup := by
  induction cfg with
  | nil => simp [setRule]
  | cons r rest ih =>
      obtain ⟨k', v⟩ := r
      simp only [List.map_cons, List.nodup_cons] at h
      by_cases hk : k' = k
      · subst hk
        simpa [setRule] using h
      · simp only [setRule, hk, if_false, List.map_cons, List.nodup_cons]
        refine ⟨?_, ih h.2⟩
        rw [mem_keys_setRule]
        rintro (hmem | heq)
        · exact h.1 hmem
        · exact hk heq

/-- Overlaying keeps rule names unique. -/
theorem nodup_overlay (base own : EffectiveConfig) (h : (base.map Prod.fst).Nodup) :
    ((overlay base own).map Prod.fst).Nodup := by
  induction own generalizing base with
  | nil => simpa [overlay] using h
  | cons r rest ih => exact ih _ (nodup_setRule base r.1 r.2 h)

/-! ## Resolution keeps rule names unique -/

/-- Resolving `extends` onto a base with unique rule names gives unique rule names. -/
theorem nodup_resolveExtends (reg : Registry)
    (recur : ConfigDocument → Option (Except ResolveError EffectiveConfig))
    (names : List String) (acc r : EffectiveConfig)
    (hacc : (acc.map Prod.fst).Nodup)
    (h : resolveExtends reg recur names acc = some (.ok r)) :
    (r.map Prod.fst).Nodup := by
  induction names generalizing acc with
  | nil =>
      simp only [resolveExtends, Option.some.injEq, Except.ok.injEq] at h
      exact h ▸ hacc
  | cons name rest ih =>
      simp only [resolveExtends] at h
      split at h
      · simp at h
      · split at h
        · simp at h
        · simp at h
        · exact ih _ (nodup_overlay _ _ hacc) h

/-- A resolved document has unique rule names. -/
theorem nodup_resolveWith (reg : Registry)
    (recur : ConfigDocument → Option (Except ResolveError EffectiveConfig))
    (doc : ConfigDocument) (r : EffectiveConfig)
    (h : resolveWith reg recur doc = some (.ok r)) : (r.map Prod.fst).Nodup := by
  simp only [resolveWith] at h
  split at h
  · simp at h
  · simp at h
  · rename_i base hbase
    split at h
    · simp at h
    · simp only [Option.some.injEq, Except.ok.injEq] at h
      rw [← h]
      exact nodup_overlay _ _ (nodup_resolveExtends reg recur _ [] base (by simp) hbase)

/-- Rule names are unique within every configuration `resolveDoc` produces. -/
theorem nodup_resolveDoc (reg : Registry) (depth : Nat) (doc : ConfigDocument)
    (r : EffectiveConfig) (h : resolveDoc reg depth doc = some (.ok r)) :
    (r.map Prod.fst).Nodup := by
  cases depth with
  | zero => exact nodup_resolveWith reg _ doc r h
  | succ d => exact nodup_resolveWith reg _ doc r h

/-! ## Local rules read in order -/

/-- When the local rules are read successfully, the result lists the same names in the same order, each with the definition read from its entry. -/
theorem parseRules_forall₂ (rules : List (String × List JsValue)) (own : EffectiveConfig)
    (h : parseRules rules = .ok own) :
    List.Forall₂ (fun r o => o.1 = r.1 ∧ toRuleDefinition r.1 r.2 = .ok o.2) rules own := by
  induction rules generalizing own with
  | nil =>
      simp only [parseRules, Except.ok.injEq] at h
      subst h
      exact List.Forall₂.nil
  | cons r rest ih =>
      obtain ⟨name, entry⟩ := r
      simp only [parseRules] at h
      split at h
      · simp at h
      · rename_i d hd
        split at h
        · simp at h
        · rename_i ds hds
          simp only [Except.ok.injEq] at h
          subst h
          exact List.Forall₂.cons ⟨rfl, hd⟩ (ih ds hds)

/-- Lookup commutes with reading the entries. -/
theorem lookupKey_of_forall₂ (n : String) (rules : List (String × List JsValue))
    (own : EffectiveConfig)
    (h : List.Forall₂ (fun r o => o.1 = r.1 ∧ toRuleDefinition r.1 r.2 = .ok o.2) rules own) :
    (lookupKey n rules = none → lookupKey n own = none) ∧
      (∀ entry, lookupKey n rules = some entry →
        ∃ d, toRuleDefinition n entry = .ok d ∧ lookupKey n own = some d) := by
  induction h with
  | nil => simp [lookupKey]
  | @cons r o rest orest hro _ ih =>
      obtain ⟨k, e⟩ := r
      obtain ⟨k', d⟩ := o
      obtain ⟨hk, hd⟩ := hro
      simp only at hk hd
      subst hk
      by_cases hn : k' = n
      · subst hn
        simp [lookupKey, hd]
      · simpa [lookupKey, hn] using ih

/-- The last local binding of a name, before and after the rules are read. -/
theorem lookupKey_parseRules (n : String) (doc : ConfigDocument) (own : EffectiveConfig)
    (h : parseRules doc.rules = .ok own) :
    (ruleOf doc n = none → lookupKey n own.reverse = none) ∧
      (∀ entry, ruleOf doc n = some entry →
        ∃ d, toRuleDefinition n entry = .ok d ∧ lookupKey n own.reverse = some d) :=
  lookupKey_of_forall₂ n doc.rules.reverse own.reverse
    (List.rel_reverse (parseRules_forall₂ doc.rules own h))

/-- The local rules of `src/commitlint.config.js` are read without error. -/
theorem parseRules_commitlintConfig :
    ∃ own, parseRules commitlintConfig.rules = .ok own :=
  ⟨_, rfl⟩

/-- Reading the local rules of `src/.commitlintrc.js` stops at `subject-case`,
whose entry has no condition. -/
theorem parseRules_commitlintrc :
    parseRules commitlintrc.rules = .error (.MalformedRuleDefinition "subject-case") :=
  rfl

/-! ## Facts about the two documents and the resolver -/

/-- Overlaying a configuration with unique names onto the empty one changes no binding. -/
theorem lookupKey_overlay_nil (n : String) (cfg : EffectiveConfig)
    (h : (cfg.map Prod.fst).Nodup) : lookupKey n (overlay [] cfg) = lookupKey n cfg := by
  rw [lookupKey_overlay, lookupKey_reverse n cfg h]
  cases lookupKey n cfg <;> simp [lookupKey]

/-- Both documents extend exactly one base, `@commitlint/config-conventional`. -/
theorem extends_documents :
    ∀ doc ∈ documents, doc.extends_ = ["@commitlint/config-conventional"] := by
  decide

/-- The severity read from an entry is the level written first in it. -/
theorem severityOf_toSeverity (entry : List JsValue) (sev : RuleSeverity)
    (h : toSeverity entry = some sev) : severityOf entry = some (.num sev.level) := by
  simp only [toSeverity] at h
  cases hs : severityOf entry with
  | none => simp [hs] at h
  | some v =>
      cases v with
      | num n =>
          simp only [hs, Option.some_bind, JsValue.asInteger, RuleSeverity.ofLevel] at h
          split_ifs at h with h0 h1 h2
          · cases h; simp [RuleSeverity.level, h0]
          · cases h; simp [RuleSeverity.level, h1]
          · cases h; simp [RuleSeverity.level, h2]
      | str s => simp [hs, JsValue.asInteger] at h
      | arr l => simp [hs, JsValue.asInteger] at h

/-- The condition read from an entry is the string written second in it. -/
theorem conditionOf_toCondition (c : Option JsValue) (cond : RuleCondition)
    (h : toCondition c = some cond) : c = some (.str cond.text) := by
  cases c with
  | none => simp [toCondition] at h
  | some v =>
      cases v with
      | num n => simp [toCondition] at h
      | arr l => simp [toCondition] at h
      | str s =>
          simp only [toCondition] at h
          split_ifs at h with h0 h1
          · cases h; simp [RuleCondition.text, h0]
          · cases h; simp [RuleCondition.text, h1]

/-- A definition read from an entry has the severity, the condition and the
value written in the entry. -/
theorem components_toRuleDefinition (name : String) (entry : List JsValue)
    (d : RuleDefinition) (h : toRuleDefinition name entry = .ok d) :
    severityOf entry = some (.num d.severity.level) ∧
      conditionOf entry = some (.str d.condition.text) ∧
      valueOf entry = d.value := by
  simp only [toRuleDefinition] at h
  split at h
  · rename_i sev cond hsev hcond
    split at h
    · simp only [Except.ok.injEq] at h
      subst h
      exact ⟨severityOf_toSeverity entry sev hsev,
        conditionOf_toCondition _ cond hcond, rfl⟩
    · simp at h
  · simp at h

/-! ## A larger nesting budget changes no result -/

/-- A resolver for base documents that answers at least as often gives the same result for `extends`. -/
theorem resolveExtends_mono (reg : Registry)
    (recur recur' : ConfigDocument → Option (Except ResolveError EffectiveConfig))
    (hle : ∀ doc r, recur doc = some r → recur' doc = some r)
    (names : List String) (acc : EffectiveConfig) (r : Except ResolveError EffectiveConfig)
    (h : resolveExtends reg recur names acc = some r) :
    resolveExtends reg recur' names acc = some r := by
  induction names generalizing acc with
  | nil => simpa [resolveExtends] using h
  | cons name rest ih =>
      simp only [resolveExtends] at h ⊢
      cases hl : lookupKey name reg with
      | none => simpa [hl] using h
      | some base =>
          simp only [hl] at h ⊢
          cases hr : recur base with
          | none => simp [hr] at h
          | some x =>
              rw [hle base x hr]
              rw [hr] at h
              cases x with
              | error e => simpa using h
              | ok cfg => exact ih _ h

/-- A resolver for base documents that answers at least as often gives the same result for a document. -/
theorem resolveWith_mono (reg : Registry)
    (recur recur' : ConfigDocument → Option (Except ResolveError EffectiveConfig))
    (hle : ∀ doc r, recur doc = some r → recur' doc = some r)
    (doc : ConfigDocument) (r : Except ResolveError EffectiveConfig)
    (h : resolveWith reg recur doc = some r) : resolveWith reg recur' doc = some r := by
  simp only [resolveWith] at h ⊢
  cases hx : resolveExtends reg recur doc.extends_ [] with
  | none => simp [hx] at h
  | some x =>
      rw [resolveExtends_mono reg recur recur' hle _ _ x hx]
      rw [hx] at h
      exact h

/-- One more level of nesting budget keeps every result. -/
theorem resolveDoc_succ (reg : Registry) (depth : Nat) :
    ∀ (doc : ConfigDocument) (r : Except ResolveError EffectiveConfig),
      resolveDoc reg depth doc = some r → resolveDoc reg (depth + 1) doc = some r := by
  induction depth with
  | zero =>
      intro doc r h
      exact resolveWith_mono reg _ _ (fun _ _ hn => by simp at hn) doc r h
  | succ d ih =>
      intro doc r h
      exact resolveWith_mono reg _ _ ih doc r h

/-- A larger nesting budget keeps every result. -/
theorem resolveDoc_add (reg : Registry) (depth extra : Nat) (doc : ConfigDocument)
    (r : Except ResolveError EffectiveConfig) (h : resolveDoc reg depth doc = some r) :
    resolveDoc reg (depth + extra) doc = some r := by
  induction extra with
  | zero => exact h
  | succ k ih => exact resolveDoc_succ reg (depth + k) doc r ih

/-! ## Ordering of strings -/

/-- Strictly ascending order of the strings, compared character by character. -/
theorem ascending_of_chars (l : List String)
    (h : List.Pairwise (fun a b => a.toList < b.toList) l) :
    List.Pairwise (fun a b : String => a < b) l :=
  h.imp (fun h => String.lt_iff_toList_lt.mpr h)

/-! ## The shape of the rule entries -/

/-- C1, as stated, fails: `src/.commitlintrc.js` binds `subject-case` to the
one-element entry `[0]`, which has no second component at all. -/
theorem c1_subject_case_has_no_condition :
    ruleOf commitlintrc "subject-case" = some [.num 0] ∧
      conditionOf [.num 0] = none ∧ ¬ HasCondition [.num 0] := by
  decide

/-- C1, amended: every rule entry of `src/commitlint.config.js` has a second
component that is `always` or `never`; in `src/.commitlintrc.js` every entry has
one too, except the entries that are exactly `[0]`, and those are the entries of
`subject-case` and `body-max-line-length`. -/
theorem c1_condition_shape :
    (∀ r ∈ commitlintConfig.rules, HasCondition r.2) ∧
      (∀ r ∈ commitlintrc.rules, HasCondition r.2 ∨ r.2 = [.num 0]) ∧
      (∀ r ∈ commitlintrc.rules,
        r.2 = [.num 0] ↔ (r.1 = "subject-case" ∨ r.1 = "body-max-line-length")) := by
  decide

/-- C2: in both documents the first component of every rule entry is the
integer 0, 1 or 2, and the entry stands for exactly one `RuleSeverity`. -/
theorem c2_severity_levels :
    ∀ doc ∈ documents, ∀ r ∈ doc.rules,
      HasSeverityLevel r.2 ∧
        ∃! s : RuleSeverity, severityOf r.2 = some (.num s.level) := by
  intro doc hdoc r hr
  have h : HasSeverityLevel r.2 := by
    revert r; revert doc; decide
  refine ⟨h, ?_⟩
  rcases h with h | h | h
  · refine ⟨.Off, by simpa [RuleSeverity.level] using h, ?_⟩
    intro s hs
    rw [h] at hs
    cases s <;> simp [RuleSeverity.level] at hs ⊢
  · refine ⟨.Warning, by simpa [RuleSeverity.level] using h, ?_⟩
    intro s hs
    rw [h] at hs
    cases s <;> simp [RuleSeverity.level] at hs ⊢
  · refine ⟨.Error, by simpa [RuleSeverity.level] using h, ?_⟩
    intro s hs
    rw [h] at hs
    cases s <;> simp [RuleSeverity.level] at hs ⊢

/-- C2 at the `scope-empty` entry of `src/.commitlintrc.js`. -/
theorem c2_severity_levels_witness :
    HasSeverityLevel [.num 2, .str "never"] ∧
      ∃! s : RuleSeverity, severityOf [.num 2, .str "never"] = some (.num s.level) :=
  c2_severity_levels commitlintrc (by decide) ("scope-empty", [.num 2, .str "never"])
    (by decide)

/-! ## The values of the typed rules -/

/-- C3, as stated, fails: `src/.commitlintrc.js` defines `body-max-line-length`
as `[0]`, an entry with no third component, so its value is not an integer. -/
theorem c3_body_max_line_length_without_value :
    ruleOf commitlintrc "body-max-line-length" = some [.num 0] ∧
      valueOf [.num 0] = none ∧
      (valueOf [.num 0]).bind JsValue.asInteger = none := by
  decide

/-- C3, amended: in every document that defines them, the values of `type-enum`
and `scope-enum` are arrays of strings; the value of `body-max-line-length` is
the integer 100 in `src/commitlint.config.js`, while in `src/.commitlintrc.js`
that rule is the entry `[0]`, with no value. -/
theorem c3_value_types :
    (∀ doc ∈ documents, ∀ name ∈ ["type-enum", "scope-enum"],
        (ruleOf doc name).isSome → (stringListOf doc name).isSome) ∧
      (ruleOf commitlintConfig "body-max-line-length").bind valueOf = some (.num 100) ∧
      ((ruleOf commitlintConfig "body-max-line-length").bind valueOf).bind JsValue.asInteger
        = some 100 ∧
      ruleOf commitlintrc "body-max-line-length" = some [.num 0] ∧
      (ruleOf commitlintrc "body-max-line-length").bind valueOf = none := by
  decide

/-- C4, as stated, fails: `subject-case` in `src/commitlint.config.js` has the
condition `always` and the empty array as its value. -/
theorem c4_subject_case_empty_list :
    ruleOf commitlintConfig "subject-case" = some [.num 0, .str "always", .arr []] ∧
      conditionOf [.num 0, .str "always", .arr []] = some (.str "always") ∧
      valueOf [.num 0, .str "always", .arr []] = some (.arr []) := by
  decide

/-- C4, amended: for every rule in either document whose severity is not 0,
whose condition is `always` and whose value is an array, the array is not
empty. -/
theorem c4_enforced_lists_nonempty :
    ∀ doc ∈ documents, ∀ r ∈ doc.rules, ∀ items : List JsValue,
      severityOf r.2 ≠ some (.num 0) →
      conditionOf r.2 = some (.str "always") →
      valueOf r.2 = some (.arr items) →
      items ≠ [] := by
  intro doc hdoc r hr items hsev hcond hval hnil
  have key : ∀ doc ∈ documents, ∀ r ∈ doc.rules,
      severityOf r.2 ≠ some (.num 0) → conditionOf r.2 = some (.str "always") →
        valueOf r.2 ≠ some (.arr []) := by decide
  exact key doc hdoc r hr hsev hcond (hnil ▸ hval)

/-- C4, amended, at the `type-enum` entry of `src/commitlint.config.js`. -/
theorem c4_enforced_lists_nonempty_witness :
    ([.str "build", .str "chore", .str "ci", .str "docs", .str "feat", .str "fix",
      .str "perf", .str "refactor", .str "revert", .str "style", .str "test"] :
        List JsValue) ≠ [] :=
  c4_enforced_lists_nonempty commitlintConfig (by decide)
    ("type-enum",
      [ .num 1, .str "always",
        .arr [ .str "build", .str "chore", .str "ci", .str "docs", .str "feat", .str "fix",
               .str "perf", .str "refactor", .str "revert", .str "style", .str "test" ] ])
    (by decide) _ (by decide) (by decide) (by decide)

/-! ## The rule names -/

/-- C5: every rule name of either document is one of the seven recognized
names, each of the seven is defined in at least one document, and no document
writes a rule name twice. -/
theorem c5_rule_names :
    (∀ doc ∈ documents, ∀ name ∈ ruleNames doc, name ∈ recognizedRuleNames) ∧
      (∀ name ∈ recognizedRuleNames, ∃ doc ∈ documents, name ∈ ruleNames doc) ∧
      (∀ doc ∈ documents, (ruleNames doc).Nodup) ∧
      recognizedRuleNames.Nodup ∧ recognizedRuleNames.length = 7 := by
  decide

/-! ## Resolving the two documents -/

/-- C6, as stated, fails in two ways.  A base configuration registered under
`@commitlint/config-conventional` that itself extends an unregistered name
makes the resolution of either document fail.  And with a base that resolves,
the resolution of `src/.commitlintrc.js` still fails, with
`MalformedRuleDefinition`: its `subject-case` entry is `[0]`, without the
condition a definition requires. -/
theorem c6_resolution_fails :
    lookupKey "@commitlint/config-conventional" danglingRegistry
        = some ⟨["missing-base"], []⟩ ∧
      (∀ depth, ∀ doc ∈ documents,
        resolve danglingRegistry (depth + 1) [doc]
          = some (.error (.UnknownExtendsTarget "missing-base"))) ∧
      (∀ doc ∈ documents, resolve danglingRegistry 0 [doc] = none) ∧
      lookupKey "@commitlint/config-conventional" sampleRegistry = some sampleBase ∧
      resolveDoc sampleRegistry 0 sampleBase = some (.ok sampleBaseConfig) ∧
      ruleOf commitlintrc "subject-case" = some [.num 0] ∧
      conditionOf [.num 0] = none ∧
      resolve sampleRegistry 1 [commitlintrc]
        = some (.error (.MalformedRuleDefinition "subject-case")) := by
  refine ⟨rfl, ?_, ?_, rfl, rfl, by decide, rfl, rfl⟩
  · intro depth doc hdoc
    have hext := extends_documents doc hdoc
    cases depth <;>
      simp [resolve, resolveFrom, resolveDoc, resolveWith, resolveExtends, hext,
        danglingRegistry, lookupKey]
  · intro doc hdoc
    have hext := extends_documents doc hdoc
    simp [resolve, resolveFrom, resolveDoc, resolveWith, resolveExtends, hext,
      danglingRegistry, lookupKey]

/-- C6, amended: for every base configuration registered under
`@commitlint/config-conventional` that itself resolves, to a configuration `b`
within some nesting budget, and for every larger budget: resolving
`src/commitlint.config.js` succeeds, every rule of the document is bound to
a definition with the severity, condition and value written in its local
entry, and every other rule name is bound as in `b`; resolving
`src/.commitlintrc.js` fails with `MalformedRuleDefinition` for `subject-case`
and gives no configuration. -/
theorem c6_local_rules_win (reg : Registry) (depth extra : Nat) (base : ConfigDocument)
    (b : EffectiveConfig)
    (hreg : lookupKey "@commitlint/config-conventional" reg = some base)
    (hbase : resolveDoc reg depth base = some (.ok b)) :
    (∃ eff,
      resolve reg (depth + extra + 1) [commitlintConfig] = some (.ok eff) ∧
      (∀ name entry, ruleOf commitlintConfig name = some entry →
        ∃ d, lookupKey name eff = some d ∧
          toRuleDefinition name entry = .ok d ∧
          severityOf entry = some (.num d.severity.level) ∧
          conditionOf entry = some (.str d.condition.text) ∧
          valueOf entry = d.value) ∧
      (∀ name, ruleOf commitlintConfig name = none →
        lookupKey name eff = lookupKey name b)) ∧
      resolve reg (depth + extra + 1) [commitlintrc]
        = some (.error (.MalformedRuleDefinition "subject-case")) := by
  obtain ⟨own, hown⟩ := parseRules_commitlintConfig
  have hb : (b.map Prod.fst).Nodup := nodup_resolveDoc reg depth base b hbase
  have hbase' := resolveDoc_add reg depth extra base _ hbase
  have hdocres : resolveDoc reg (depth + extra + 1) commitlintConfig
      = some (.ok (overlay (overlay [] b) own)) := by
    have hext : commitlintConfig.extends_ = ["@commitlint/config-conventional"] := rfl
    simp [resolveDoc, resolveWith, resolveExtends, hext, hreg, hbase', hown]
  have hrcres : resolveDoc reg (depth + extra + 1) commitlintrc
      = some (.error (.MalformedRuleDefinition "subject-case")) := by
    have hext : commitlintrc.extends_ = ["@commitlint/config-conventional"] := rfl
    simp [resolveDoc, resolveWith, resolveExtends, hext, hreg, hbase',
      parseRules_commitlintrc]
  have hnd : ((overlay (overlay [] b) own).map Prod.fst).Nodup :=
    nodup_overlay _ _ (nodup_overlay _ _ (by simp))
  have hlook : ∀ n, lookupKey n (overlay [] (overlay (overlay [] b) own))
      = (lookupKey n own.reverse).or (lookupKey n b) := by
    intro n
    rw [lookupKey_overlay_nil n _ hnd, lookupKey_overlay, lookupKey_overlay_nil n b hb]
  refine ⟨⟨overlay [] (overlay (overlay [] b) own), ?_, ?_, ?_⟩, ?_⟩
  · simp [resolve, resolveFrom, hdocres]
  · intro name entry hentry
    obtain ⟨d, hd, hl⟩ := (lookupKey_parseRules name commitlintConfig own hown).2 entry hentry
    obtain ⟨h1, h2, h3⟩ := components_toRuleDefinition name entry d hd
    exact ⟨d, by rw [hlook, hl]; rfl, hd, h1, h2, h3⟩
  · intro name hnone
    rw [hlook, (lookupKey_parseRules name commitlintConfig own hown).1 hnone]
    rfl
  · simp [resolve, resolveFrom, hrcres]

/-- C6, amended, at `sampleRegistry`, whose base resolves with no nesting to
`sampleBaseConfig`, and the budget 3. -/
theorem c6_local_rules_win_witness :
    lookupKey "@commitlint/config-conventional" sampleRegistry = some sampleBase ∧
      resolveDoc sampleRegistry 0 sampleBase = some (.ok sampleBaseConfig) ∧
      (∃ eff,
        resolve sampleRegistry 3 [commitlintConfig] = some (.ok eff) ∧
        (∀ name entry, ruleOf commitlintConfig name = some entry →
          ∃ d, lookupKey name eff = some d ∧
            toRuleDefinition name entry = .ok d ∧
            severityOf entry = some (.num d.severity.level) ∧
            conditionOf entry = some (.str d.condition.text) ∧
            valueOf entry = d.value) ∧
        (∀ name, ruleOf commitlintConfig name = none →
          lookupKey name eff = lookupKey name sampleBaseConfig)) ∧
      resolve sampleRegistry 3 [commitlintrc]
        = some (.error (.MalformedRuleDefinition "subject-case")) :=
  ⟨rfl, rfl, c6_local_rules_win sampleRegistry 0 2 sampleBase sampleBaseConfig rfl rfl⟩

/-- C7: both documents extend exactly `@commitlint/config-conventional`, and
with a registry that does not register that name the resolution of either
document fails with `UnknownExtendsTarget`, at every nesting budget. -/
theorem c7_unregistered_base_fails (reg : Registry) (depth : Nat)
    (hreg : lookupKey "@commitlint/config-conventional" reg = none) :
    ∀ doc ∈ documents,
      doc.extends_ = ["@commitlint/config-conventional"] ∧
        resolve reg depth [doc]
          = some (.error (.UnknownExtendsTarget "@commitlint/config-conventional")) := by
  intro doc hdoc
  have hext := extends_documents doc hdoc
  refine ⟨hext, ?_⟩
  cases depth <;>
    simp [resolve, resolveFrom, resolveDoc, resolveWith, resolveExtends, hext, hreg]

/-- C7 at `unscopedRegistry`, which registers only `config-conventional`. -/
theorem c7_unregistered_base_fails_witness :
    lookupKey "@commitlint/config-conventional" unscopedRegistry = none ∧
      ∀ doc ∈ documents,
        doc.extends_ = ["@commitlint/config-conventional"] ∧
          resolve unscopedRegistry 3 [doc]
            = some (.error (.UnknownExtendsTarget "@commitlint/config-conventional")) :=
  ⟨by decide, c7_unregistered_base_fails unscopedRegistry 3 (by decide)⟩

/-! ## The two profiles -/

/-- C8: in `src/commitlint.config.js` the rules `type-enum`, `subject-empty` and
`type-empty` have severity 1 and no rule has severity 2; in
`src/.commitlintrc.js` no rule has severity 1 and `type-enum` and `scope-enum`
both have severity 2, condition `always` and an array of strings as value. -/
theorem c8_profiles :
    (∀ name ∈ ["type-enum", "subject-empty", "type-empty"],
        (ruleOf commitlintConfig name).bind severityOf = some (.num 1)) ∧
      (∀ r ∈ commitlintConfig.rules, severityOf r.2 ≠ some (.num 2)) ∧
      (∀ r ∈ commitlintrc.rules, severityOf r.2 ≠ some (.num 1)) ∧
      (∀ name ∈ ["type-enum", "scope-enum"],
        (ruleOf commitlintrc name).bind severityOf = some (.num 2) ∧
          (ruleOf commitlintrc name).bind conditionOf = some (.str "always") ∧
          (stringListOf commitlintrc name).isSome) := by
  decide

/-- C9, as stated, fails: `subject-case` in `src/.commitlintrc.js` has severity
0 and its entry `[0]` keeps neither a condition nor a value. -/
theorem c9_off_rule_keeps_nothing :
    ruleOf commitlintrc "subject-case" = some [.num 0] ∧
      severityOf [.num 0] = some (.num 0) ∧
      conditionOf [.num 0] = none ∧ valueOf [.num 0] = none := by
  decide

/-- C9, amended: `subject-case` has severity 0 in both documents; the rules with
severity 0 are `subject-case` in `src/commitlint.config.js`, whose entry keeps
the condition `always` and the value `[]`, and `subject-case` and
`body-max-line-length` in `src/.commitlintrc.js`, whose entries are `[0]` and
keep neither a condition nor a value. -/
theorem c9_off_rules :
    (∀ doc ∈ documents, (ruleOf doc "subject-case").bind severityOf = some (.num 0)) ∧
      (∀ r ∈ commitlintConfig.rules,
        severityOf r.2 = some (.num 0) ↔ r.1 = "subject-case") ∧
      (∀ r ∈ commitlintConfig.rules, severityOf r.2 = some (.num 0) →
        conditionOf r.2 = some (.str "always") ∧ valueOf r.2 = some (.arr [])) ∧
      (∀ r ∈ commitlintrc.rules,
        severityOf r.2 = some (.num 0) ↔
          (r.1 = "subject-case" ∨ r.1 = "body-max-line-length")) ∧
      (∀ r ∈ commitlintrc.rules, severityOf r.2 = some (.num 0) →
        conditionOf r.2 = none ∧ valueOf r.2 = none) := by
  decide

/-! ## The allowed commit types -/

/-- C10: the `type-enum` entries of the two documents are
`[2, always, a]` and `[1, always, b]` with `a` and `b` permutations of each
other, each of 11 distinct strings, `b` strictly ascending; the `scope-enum`
list has 9 distinct strings. -/
theorem c10_same_commit_types :
    ∃ a b s : List String,
      ruleOf commitlintrc "type-enum" = some [.num 2, .str "always", .arr (a.map .str)] ∧
      ruleOf commitlintConfig "type-enum" =
        some [.num 1, .str "always", .arr (b.map .str)] ∧
      stringListOf commitlintrc "scope-enum" = some s ∧
      a.Perm b ∧ a.length = 11 ∧ b.length = 11 ∧ a.Nodup ∧ b.Nodup ∧
      s.length = 9 ∧ s.Nodup ∧
      List.Pairwise (fun x y : String => x < y) b := by
  refine ⟨["feat", "fix", "docs", "style", "refactor", "perf", "test", "build", "ci",
      "chore", "revert"],
    ["build", "chore", "ci", "docs", "feat", "fix", "perf", "refactor", "revert", "style",
      "test"],
    ["core", "model", "prompt", "generator", "config", "init", "cli", "docs", "deps"],
    by decide, by decide, by decide, by decide, by decide, by decide, by decide, by decide,
    by decide, by decide, ?_⟩
  apply ascending_of_chars
  decide

end Scotter
